import Mathlib

/-!
# Verification of `pystac/item_collection.py` (`ItemCollection`)

Shallow embedding of the `ItemCollection` class.  Python objects of type
`pystac.Item` are identified by a reference (`Ref := Nat`) into an explicit
store (`Store`), so that Python's reference identity (`is`, and the default
`==` for `Item`, which defines no `__eq__`) becomes equality of references,
while structural equality of two items becomes equality of their stored
serialized states.  JSON-like dictionaries are ordered association lists,
mirroring CPython dict insertion order.

The collaborators `pystac.Item`, `identify_stac_object_type`,
`STACTypeError` and `copy.deepcopy` are not part of the given source file;
they are modelled from the specification's collaborator contracts (see the
doc comments marked "Modelled from the spec").  Everything else is a direct
translation of `src/pystac/item_collection.py`.
-/

set_option autoImplicit false

namespace PystacIC

/-- JSON-like values: the states of items and the values of extra fields.
Objects are ordered association lists (CPython dicts preserve insertion
order). -/
inductive Json where
  | null
  | bool (b : Bool)
  | num (n : Int)
  | str (s : String)
  | arr (xs : List Json)
  | obj (fs : List (String × Json))

/-- A Python dictionary with string keys, as an ordered association list. -/
abbrev JObj := List (String × Json)

/-- Reference identity of a `pystac.Item` object. -/
abbrev Ref := Nat

/-- The heap of `pystac.Item` objects: the entry at index `r` is the
serialized state (`to_dict` form) of the item whose reference is `r`. -/
abbrev Store := List Json

namespace Item

/-- Modelled from the spec: `pystac.Item.from_dict` (not under `src/`).
"Parsing always produces a fresh instance"; the parsed item's serialized
state is the given dictionary. -/
def from_dict (σ : Store) (d : Json) : Ref × Store :=
  (σ.length, σ ++ [d])

/-- Modelled from the spec: `pystac.Item.clone` (not under `src/`).
A full deep copy: a fresh instance with the same serialized state. -/
def clone (σ : Store) (r : Ref) : Ref × Store :=
  (σ.length, σ ++ [σ.getD r Json.null])

/-- Modelled from the spec: `pystac.Item.to_dict` (not under `src/`).
Reads back the item's serialized state. -/
def to_dict (σ : Store) (r : Ref) : Json :=
  σ.getD r Json.null

end Item

/-- Mutating a field of the item referenced by `r`: its serialized state
becomes `d`.  Used to express clone-independence properties. -/
def setItem (σ : Store) (r : Ref) (d : Json) : Store :=
  σ.set r d

/-- `ItemLike = Union[pystac.Item, Dict[str, Any]]`: an element passed to
the constructor, either an existing `Item` instance or a raw dictionary. -/
inductive ItemLike where
  | item (r : Ref)
  | dict (d : Json)

/-- The `ItemCollection` state: the list of contained item references and
the dictionary of additional top-level fields. -/
structure ItemCollection where
  items : List Ref
  extra_fields : JObj

/-- `map_item` from `ItemCollection.__init__`: converts dicts to
`pystac.Item`s and clones if necessary. -/
def map_item (clone_items : Bool) (σ : Store) : ItemLike → Ref × Store
  | ItemLike.item r => if clone_items then Item.clone σ r else (r, σ)
  | ItemLike.dict d => Item.from_dict σ d

/-- `list(map(map_item, items))`, threading the item store left to right. -/
def mapItems (clone_items : Bool) : List ItemLike → Store → List Ref × Store
  | [], σ => ([], σ)
  | x :: xs, σ =>
    let p := map_item clone_items σ x
    let q := mapItems clone_items xs p.2
    (p.1 :: q.1, q.2)

/-- `ItemCollection.__init__(items, extra_fields=None, clone_items=True)`.
`self.extra_fields = extra_fields or {}`: `None` (and the falsy empty
dict) becomes the empty mapping. -/
def ItemCollection.init (σ : Store) (items : List ItemLike)
    (extra_fields : Option JObj) (clone_items : Bool) :
    ItemCollection × Store :=
  let q := mapItems clone_items items σ
  (⟨q.1, extra_fields.getD []⟩, q.2)

/-- `__len__`: `len(self.items)`. -/
def ItemCollection.size (c : ItemCollection) : Nat :=
  c.items.length

/-- `__getitem__`: `self.items[idx]` (as an `Option` for the out-of-range
error). -/
def ItemCollection.getItem (c : ItemCollection) (idx : Nat) : Option Ref :=
  c.items.get? idx

/-- `__contains__`: `__x in self.items`.  Python list membership uses `==`,
which for `pystac.Item` (no `__eq__` defined) is reference identity. -/
def ItemCollection.hasMember (c : ItemCollection) (r : Ref) : Bool :=
  c.items.contains r

/-- The deduplicating loop of `__add__`: append each item only if it is not
already present (by reference identity) in the list built so far. -/
def dedupAppend (acc : List Ref) (l : List Ref) : List Ref :=
  l.foldl (fun acc item => if acc.contains item then acc else acc ++ [item]) acc

/-- `__add__` on an actual `ItemCollection` operand: dedup the concatenation
and build a new collection with `clone_items=False` (and no extra fields). -/
def ItemCollection.add (σ : Store) (a b : ItemCollection) :
    ItemCollection × Store :=
  let combined := dedupAppend [] (a.items ++ b.items)
  ItemCollection.init σ (combined.map ItemLike.item) none false

/-- The right operand of `__add__`, as Python sees it: either an
`ItemCollection` instance or any other object. -/
inductive PyOperand where
  | coll (b : ItemCollection)
  | nonColl (v : Json)

/-- Possible outcomes of `__add__`: a collection, the `NotImplemented`
signal, or a raised exception (the last never occurs; it is present so the
absence of raising is expressible). -/
inductive AddResult where
  | ok (c : ItemCollection) (σ : Store)
  | notImplemented
  | raised (msg : String)

/-- `__add__(self, other)` including the `isinstance` guard:
`return NotImplemented` when `other` is not an `ItemCollection`. -/
def ItemCollection.addPy (σ : Store) (a : ItemCollection) :
    PyOperand → AddResult
  | PyOperand.coll b =>
    let p := ItemCollection.add σ a b
    AddResult.ok p.1 p.2
  | PyOperand.nonColl _ => AddResult.notImplemented

/-- One CPython dict insertion: if the key is present, its value is updated
in place (keeping its position); otherwise the pair is appended. -/
def pyInsert (fs : JObj) (k : String) (v : Json) : JObj :=
  if fs.any (fun p => p.1 == k) then
    fs.map (fun p => if p.1 == k then (k, v) else p)
  else fs ++ [(k, v)]

/-- `{**fs, **ext}`: insert every entry of `ext` into `fs`, left to right. -/
def pyExtend (fs ext : JObj) : JObj :=
  ext.foldl (fun acc p => pyInsert acc p.1 p.2) fs

/-- Lookup in a Python dict. -/
def jLookup (fs : JObj) (k : String) : Option Json :=
  (fs.find? (fun p => p.1 == k)).map Prod.snd

/-- `to_dict`: `{"type": "FeatureCollection", "features": [item.to_dict()
for item in self.items], **self.extra_fields}`. -/
def ItemCollection.to_dict (σ : Store) (c : ItemCollection) : JObj :=
  pyExtend
    [("type", Json.str "FeatureCollection"),
     ("features", Json.arr (c.items.map (Item.to_dict σ)))]
    c.extra_fields

/-- Modelled from the spec: `copy.deepcopy` on JSON-like data (Python
standard library, not under `src/`).  A recursive copy of a value; under
the value semantics of this embedding it is the identity on the value. -/
def deepcopy (fs : JObj) : JObj := fs

/-- `[item.clone() for item in self.items]`, threading the item store. -/
def cloneAll : List Ref → Store → List Ref × Store
  | [], σ => ([], σ)
  | r :: rs, σ =>
    let p := Item.clone σ r
    let q := cloneAll rs p.2
    (p.1 :: q.1, q.2)

/-- `clone`: `self.__class__(items=[item.clone() for item in self.items],
extra_fields=deepcopy(self.extra_fields))`.  Note: `clone_items` is left at
its default `True`, so the constructor clones the fresh clones once more. -/
def ItemCollection.clone (σ : Store) (c : ItemCollection) :
    ItemCollection × Store :=
  let q := cloneAll c.items σ
  ItemCollection.init q.2 (q.1.map ItemLike.item) (some (deepcopy c.extra_fields)) true

/-- The STAC object types relevant here.  Modelled from the spec:
`pystac.STACObjectType` is an enumeration of catalog object kinds (not
under `src/`). -/
inductive STACObjectType where
  | CATALOG
  | COLLECTION
  | ITEM
  | ITEMCOLLECTION
deriving DecidableEq

/-- Modelled from the spec: `identify_stac_object_type` (not under
`src/`): inspects a raw dictionary and reports what kind of cataloging
object it encodes; a GeoJSON `"FeatureCollection"` type tag is the
collection-of-items variant, a `"Feature"` tag is a single item, anything
else is unrecognized here. -/
def identify_stac_object_type (d : JObj) : Option STACObjectType :=
  match jLookup d "type" with
  | some (Json.str "FeatureCollection") => some STACObjectType.ITEMCOLLECTION
  | some (Json.str "Feature") => some STACObjectType.ITEM
  | _ => none

/-- Modelled from the spec: `pystac.errors.STACTypeError` (not under
`src/`), the wrong-document-type error. -/
inductive STACError where
  | STACTypeError (msg : String)

/-- `d.get("features", [])` followed by iteration: the claims only exercise
dictionaries whose `"features"` entry is a list or absent. -/
def featuresOf (d : JObj) : List Json :=
  match (jLookup d "features").getD (Json.arr []) with
  | Json.arr xs => xs
  | _ => []

/-- `[pystac.Item.from_dict(item) for item in d.get("features", [])]`. -/
def itemsFromFeatures : List Json → Store → List Ref × Store
  | [], σ => ([], σ)
  | d :: ds, σ =>
    let p := Item.from_dict σ d
    let q := itemsFromFeatures ds p.2
    (p.1 :: q.1, q.2)

/-- `from_dict`: raise `STACTypeError` unless the type identifier reports
the dictionary as an `ITEMCOLLECTION`; otherwise parse every feature, keep
every top-level key other than `"features"`/`"type"` as extra fields, and
construct with `clone_items=False`.  The store is returned unchanged on the
error path: nothing is parsed or constructed before the check. -/
def ItemCollection.from_dict (σ : Store) (d : JObj) :
    Except STACError ItemCollection × Store :=
  if identify_stac_object_type d ≠ some STACObjectType.ITEMCOLLECTION then
    (Except.error (STACError.STACTypeError "Dict is not a valid ItemCollection"), σ)
  else
    let q := itemsFromFeatures (featuresOf d) σ
    let extra := d.filter (fun p => !(p.1 == "features" || p.1 == "type"))
    let r := ItemCollection.init q.2 (q.1.map ItemLike.item) (some extra) false
    (Except.ok r.1, r.2)

/-- The keys of a Python dict, in insertion order. -/
def jKeys (fs : JObj) : List String :=
  fs.map Prod.fst

/-- The stated per-element contract of the constructor, relating each input
element (against the pre-store) to the stored reference (against the
post-store): a raw dictionary is parsed into a fresh item whose state is
that dictionary; an existing item is stored as a fresh structurally-equal
clone when `clone_items` is true, and as the very same reference when it is
false. -/
def initSpec (clone_items : Bool) (σ σ2 : Store) : ItemLike → Ref → Prop
  | ItemLike.item r, r2 =>
    if clone_items then
      σ.length ≤ r2 ∧ Item.to_dict σ2 r2 = Item.to_dict σ r
    else r2 = r
  | ItemLike.dict d, r2 => σ.length ≤ r2 ∧ Item.to_dict σ2 r2 = d

/-! ## Basic lemmas about the embedding -/

theorem mapItems_false_refs (rs : List Ref) (σ : Store) :
    mapItems false (rs.map ItemLike.item) σ = (rs, σ) := by
  induction rs with
  | nil => rfl
  | cons r rs ih => simp [mapItems, map_item, ih]

theorem init_refs_noclone (σ : Store) (rs : List Ref) (e : Option JObj) :
    ItemCollection.init σ (rs.map ItemLike.item) e false =
      (⟨rs, e.getD []⟩, σ) := by
  simp [ItemCollection.init, mapItems_false_refs]

theorem add_eq (σ : Store) (a b : ItemCollection) :
    ItemCollection.add σ a b =
      (⟨dedupAppend [] (a.items ++ b.items), []⟩, σ) := by
  simp [ItemCollection.add, init_refs_noclone]

theorem dedupAppend_cons (acc : List Ref) (x : Ref) (l : List Ref) :
    dedupAppend acc (x :: l) =
      dedupAppend (if acc.contains x then acc else acc ++ [x]) l := rfl

theorem mem_dedupAppend (acc l : List Ref) (x : Ref) :
    x ∈ dedupAppend acc l ↔ x ∈ acc ∨ x ∈ l := by
  induction l generalizing acc with
  | nil => simp [dedupAppend]
  | cons y l ih =>
    rw [dedupAppend_cons]
    by_cases h : acc.contains y
    · rw [if_pos h, ih]
      have hy : y ∈ acc := List.elem_iff.mp h
      simp only [List.mem_cons]
      constructor
      · rintro (hx | hx)
        · exact Or.inl hx
        · exact Or.inr (Or.inr hx)
      · rintro (hx | rfl | hx)
        · exact Or.inl hx
        · exact Or.inl hy
        · exact Or.inr hx
    · rw [if_neg h, ih]
      simp only [List.mem_append, List.mem_singleton, List.mem_cons]
      tauto

theorem dedupAppend_nodup (l : List Ref) (acc : List Ref) (h : acc.Nodup) :
    (dedupAppend acc l).Nodup := by
  induction l generalizing acc with
  | nil => exact h
  | cons y l ih =>
    rw [dedupAppend_cons]
    by_cases hy : acc.contains y
    · rw [if_pos hy]; exact ih acc h
    · rw [if_neg hy]
      refine ih _ ?_
      have hmem : y ∉ acc := fun hm => hy (List.elem_iff.mpr hm)
      simpa [List.nodup_append] using ⟨h, hmem⟩

theorem dedupAppend_of_nodup (l : List Ref) (acc : List Ref) (hl : l.Nodup) :
    dedupAppend acc l = acc ++ l.filter (fun x => !acc.contains x) := by
  induction l generalizing acc with
  | nil => simp [dedupAppend]
  | cons y l ih =>
    rw [dedupAppend_cons]
    by_cases hy : acc.contains y
    · have hym : y ∈ acc := List.elem_iff.mp hy
      rw [if_pos hy, ih acc hl.of_cons, List.filter_cons_of_neg (by simp [hym])]
    · have hyl : y ∉ l := (List.nodup_cons.mp hl).1
      have hfil : l.filter (fun x => !(acc ++ [y]).contains x) =
          l.filter (fun x => !acc.contains x) := by
        refine List.filter_congr ?_
        intro x hx
        have hxy : x ≠ y := fun hexy => hyl (hexy ▸ hx)
        simp [hxy]
      rw [if_neg hy, ih _ hl.of_cons, hfil,
        List.filter_cons_of_pos (by simpa using hy), List.append_assoc]
      rfl

theorem dedupAppend_append (acc l1 l2 : List Ref) :
    dedupAppend acc (l1 ++ l2) = dedupAppend (dedupAppend acc l1) l2 := by
  simp [dedupAppend, List.foldl_append]

theorem to_dict_append_of_lt (σ τ : Store) (r : Ref) (h : r < σ.length) :
    Item.to_dict (σ ++ τ) r = Item.to_dict σ r := by
  unfold Item.to_dict
  exact List.getD_append σ τ Json.null r h

theorem to_dict_append_add (σ τ : Store) (i : Nat) :
    Item.to_dict (σ ++ τ) (σ.length + i) = τ.getD i Json.null := by
  unfold Item.to_dict
  simp [List.getD_eq_getElem?_getD, List.getElem?_append_right]

theorem to_dict_set_ne (σ : Store) (rset rread : Ref) (dv : Json)
    (h : rset ≠ rread) :
    Item.to_dict (setItem σ rset dv) rread = Item.to_dict σ rread := by
  unfold Item.to_dict setItem
  simp [List.getD_eq_getElem?_getD, List.getElem?_set_ne h]

theorem itemsFromFeatures_eq (ds : List Json) : ∀ σ : Store,
    itemsFromFeatures ds σ = (List.range' σ.length ds.length, σ ++ ds) := by
  induction ds with
  | nil => intro σ; simp [itemsFromFeatures]
  | cons d ds ih =>
    intro σ
    simp [itemsFromFeatures, Item.from_dict, ih, List.range'_succ]

theorem to_dict_map_range' (ds : List Json) : ∀ σ : Store,
    (List.range' σ.length ds.length).map (Item.to_dict (σ ++ ds)) = ds := by
  induction ds with
  | nil => intro σ; rfl
  | cons d ds ih =>
    intro σ
    rw [show (d :: ds).length = ds.length + 1 from rfl, List.range'_succ,
      List.map_cons]
    congr 1
    · simpa using to_dict_append_add σ (d :: ds) 0
    · rw [List.append_cons σ d ds, show σ.length + 1 = (σ ++ [d]).length by simp]
      exact ih (σ ++ [d])

theorem cloneAll_eq (rs : List Ref) : ∀ σ : Store, (∀ r ∈ rs, r < σ.length) →
    cloneAll rs σ = (List.range' σ.length rs.length, σ ++ rs.map (Item.to_dict σ)) := by
  induction rs with
  | nil => intro σ _; simp [cloneAll]
  | cons r rs ih =>
    intro σ hv
    have hv' : ∀ x ∈ rs, x < (σ ++ [Item.to_dict σ r]).length := by
      intro x hx
      have hxl := hv x (List.mem_cons_of_mem _ hx)
      rw [List.length_append]
      exact Nat.lt_of_lt_of_le hxl (Nat.le_add_right _ _)
    have hmap : rs.map (Item.to_dict (σ ++ [Item.to_dict σ r])) =
        rs.map (Item.to_dict σ) :=
      List.map_eq_map_iff.mpr
        (fun x hx => to_dict_append_of_lt σ _ x (hv x (List.mem_cons_of_mem _ hx)))
    have hstep : cloneAll (r :: rs) σ =
        (σ.length :: (cloneAll rs (σ ++ [Item.to_dict σ r])).1,
          (cloneAll rs (σ ++ [Item.to_dict σ r])).2) := by
      simp [cloneAll, Item.clone, Item.to_dict]
    rw [hstep, ih _ hv']
    simp [List.range'_succ, hmap]

theorem mapItems_true_refs (rs : List Ref) : ∀ σ : Store,
    mapItems true (rs.map ItemLike.item) σ = cloneAll rs σ := by
  induction rs with
  | nil => intro σ; rfl
  | cons r rs ih =>
    intro σ
    simp [mapItems, map_item, cloneAll, ih]

theorem clone_eq (σ : Store) (c : ItemCollection)
    (hv : ∀ r ∈ c.items, r < σ.length) :
    ItemCollection.clone σ c =
      (⟨List.range' (σ.length + c.items.length) c.items.length, c.extra_fields⟩,
        σ ++ c.items.map (Item.to_dict σ) ++ c.items.map (Item.to_dict σ)) := by
  have h1 : cloneAll c.items σ =
      (List.range' σ.length c.items.length, σ ++ c.items.map (Item.to_dict σ)) :=
    cloneAll_eq c.items σ hv
  have hvr : ∀ x ∈ List.range' σ.length c.items.length,
      x < (σ ++ c.items.map (Item.to_dict σ)).length := by
    intro x hx
    have := List.mem_range'_1.mp hx
    simp
    omega
  have h2 : cloneAll (List.range' σ.length c.items.length)
        (σ ++ c.items.map (Item.to_dict σ)) =
      (List.range' (σ.length + c.items.length) c.items.length,
        σ ++ c.items.map (Item.to_dict σ) ++ c.items.map (Item.to_dict σ)) := by
    rw [cloneAll_eq _ _ hvr]
    have hr : (List.range' σ.length c.items.length).map
        (Item.to_dict (σ ++ c.items.map (Item.to_dict σ))) =
        c.items.map (Item.to_dict σ) := by
      have := to_dict_map_range' (c.items.map (Item.to_dict σ)) σ
      simpa using this
    rw [hr]
    simp
  unfold ItemCollection.clone
  rw [h1]
  show (ItemCollection.init (σ ++ c.items.map (Item.to_dict σ))
    ((List.range' σ.length c.items.length).map ItemLike.item)
    (some (deepcopy c.extra_fields)) true) = _
  unfold ItemCollection.init
  rw [mapItems_true_refs, h2]
  rfl

theorem mapItems_spec_aux (b : Bool) (σ0 : Store) (xs : List ItemLike) :
    ∀ σc : Store, (∃ τ, σc = σ0 ++ τ) →
    (∀ r, ItemLike.item r ∈ xs → r < σ0.length) →
    (mapItems b xs σc).1.length = xs.length ∧
    (∃ τ2, (mapItems b xs σc).2 = σc ++ τ2) ∧
    List.Forall₂ (initSpec b σ0 (mapItems b xs σc).2) xs (mapItems b xs σc).1 := by
  induction xs with
  | nil =>
    intro σc _ _
    exact ⟨rfl, ⟨[], by simp [mapItems]⟩, List.Forall₂.nil⟩
  | cons x xs ih =>
    intro σc hext hv
    obtain ⟨τ, rfl⟩ := hext
    have hlen0 : σ0.length ≤ (σ0 ++ τ).length := by simp
    have hvtl : ∀ r, ItemLike.item r ∈ xs → r < σ0.length :=
      fun r hr => hv r (List.mem_cons_of_mem _ hr)
    cases x with
    | item r =>
      have hr : r < σ0.length := hv r (List.mem_cons_self _ _)
      cases b with
      | false =>
        have hstep : mapItems false (ItemLike.item r :: xs) (σ0 ++ τ) =
            ((r :: (mapItems false xs (σ0 ++ τ)).1),
              (mapItems false xs (σ0 ++ τ)).2) := by
          simp [mapItems, map_item]
        obtain ⟨hl, ⟨τ2, hτ2⟩, hfa⟩ := ih (σ0 ++ τ) ⟨τ, rfl⟩ hvtl
        rw [hstep]
        refine ⟨by simp [hl], ⟨τ2, hτ2⟩, List.Forall₂.cons ?_ hfa⟩
        simp [initSpec]
      | true =>
        have hval : Item.clone (σ0 ++ τ) r =
            ((σ0 ++ τ).length, (σ0 ++ τ) ++ [Item.to_dict σ0 r]) := by
          unfold Item.clone Item.to_dict
          rw [List.getD_append σ0 τ Json.null r hr]
        have hstep : mapItems true (ItemLike.item r :: xs) (σ0 ++ τ) =
            (((σ0 ++ τ).length ::
                (mapItems true xs ((σ0 ++ τ) ++ [Item.to_dict σ0 r])).1),
              (mapItems true xs ((σ0 ++ τ) ++ [Item.to_dict σ0 r])).2) := by
          simp [mapItems, map_item, hval]
        obtain ⟨hl, ⟨τ2, hτ2⟩, hfa⟩ :=
          ih ((σ0 ++ τ) ++ [Item.to_dict σ0 r]) ⟨τ ++ [Item.to_dict σ0 r], by simp⟩ hvtl
        rw [hstep]
        refine ⟨by simpa using hl, ⟨[Item.to_dict σ0 r] ++ τ2, by simpa using hτ2⟩,
          List.Forall₂.cons ?_ hfa⟩
        simp only [initSpec, if_true]
        refine ⟨hlen0, ?_⟩
        rw [hτ2, to_dict_append_of_lt _ _ _ (by simp),
          show (σ0 ++ τ).length = (σ0 ++ τ).length + 0 from rfl,
          to_dict_append_add]
        rfl
    | dict dd =>
      have hstep : mapItems b (ItemLike.dict dd :: xs) (σ0 ++ τ) =
          (((σ0 ++ τ).length :: (mapItems b xs ((σ0 ++ τ) ++ [dd])).1),
            (mapItems b xs ((σ0 ++ τ) ++ [dd])).2) := by
        simp [mapItems, map_item, Item.from_dict]
      obtain ⟨hl, ⟨τ2, hτ2⟩, hfa⟩ :=
        ih ((σ0 ++ τ) ++ [dd]) ⟨τ ++ [dd], by simp⟩ hvtl
      rw [hstep]
      refine ⟨by simpa using hl, ⟨[dd] ++ τ2, by simpa using hτ2⟩,
        List.Forall₂.cons ?_ hfa⟩
      simp only [initSpec]
      refine ⟨hlen0, ?_⟩
      rw [hτ2, to_dict_append_of_lt _ _ _ (by simp),
        show (σ0 ++ τ).length = (σ0 ++ τ).length + 0 from rfl,
        to_dict_append_add]
      rfl

theorem jLookup_cons (k : String) (p : String × Json) (fs : JObj) :
    jLookup (p :: fs) k = if p.1 == k then some p.2 else jLookup fs k := by
  cases h : (p.1 == k) <;> simp [jLookup, List.find?, h]

theorem pyInsert_of_not_mem (fs : JObj) (k : String) (v : Json)
    (h : k ∉ jKeys fs) : pyInsert fs k v = fs ++ [(k, v)] := by
  have hany : ¬(fs.any (fun p => p.1 == k) = true) := by
    intro hany
    rw [List.any_eq_true] at hany
    obtain ⟨p, hp, hpk⟩ := hany
    exact h (List.mem_map.mpr ⟨p, hp, by simpa using hpk⟩)
  unfold pyInsert
  rw [if_neg hany]

theorem pyExtend_of_disjoint (ext : JObj) : ∀ fs : JObj,
    (jKeys ext).Nodup → (∀ k ∈ jKeys ext, k ∉ jKeys fs) →
    pyExtend fs ext = fs ++ ext := by
  induction ext with
  | nil => intro fs _ _; simp [pyExtend]
  | cons p ext ih =>
    intro fs hnd hdis
    have hkeys : jKeys (p :: ext) = p.1 :: jKeys ext := rfl
    rw [hkeys] at hnd hdis
    have hp1 : p.1 ∉ jKeys fs := hdis p.1 (List.mem_cons_self _ _)
    have hnd' : (jKeys ext).Nodup := hnd.of_cons
    have hdis' : ∀ k ∈ jKeys ext, k ∉ jKeys (fs ++ [(p.1, p.2)]) := by
      intro k hk
      have hk1 : k ∉ jKeys fs := hdis k (List.mem_cons_of_mem _ hk)
      have hkp : k ≠ p.1 := by
        have hni := (List.nodup_cons.mp hnd).1
        exact fun he => hni (he ▸ hk)
      simp [jKeys, List.mem_append, hkp]
      simpa [jKeys] using hk1
    have hstep : pyExtend fs (p :: ext) = pyExtend (fs ++ [(p.1, p.2)]) ext := by
      rw [show pyExtend fs (p :: ext) = pyExtend (pyInsert fs p.1 p.2) ext from rfl,
        pyInsert_of_not_mem fs p.1 p.2 hp1]
    rw [hstep, ih (fs ++ [(p.1, p.2)]) hnd' hdis', List.append_assoc]
    rfl

theorem to_dict_eq_cons (σ : Store) (c : ItemCollection)
    (h1 : "type" ∉ jKeys c.extra_fields)
    (h2 : "features" ∉ jKeys c.extra_fields)
    (h3 : (jKeys c.extra_fields).Nodup) :
    ItemCollection.to_dict σ c =
      ("type", Json.str "FeatureCollection") ::
        ("features", Json.arr (c.items.map (Item.to_dict σ))) :: c.extra_fields := by
  unfold ItemCollection.to_dict
  rw [pyExtend_of_disjoint c.extra_fields _ h3 ?_]
  · rfl
  · intro k hk
    simp only [jKeys, List.map_cons, List.map_nil, List.mem_cons,
      List.not_mem_nil, or_false]
    rintro (rfl | rfl)
    · exact h1 hk
    · exact h2 hk

theorem init_extra_fields (σ : Store) (xs : List ItemLike) (e : Option JObj)
    (b : Bool) : (ItemCollection.init σ xs e b).1.extra_fields = e.getD [] := rfl

theorem clone_extra_fields (σ : Store) (c : ItemCollection) :
    (ItemCollection.clone σ c).1.extra_fields = c.extra_fields := rfl

theorem from_dict_not_identified (σ : Store) (d : JObj)
    (hid : identify_stac_object_type d ≠ some STACObjectType.ITEMCOLLECTION) :
    ItemCollection.from_dict σ d =
      (Except.error (STACError.STACTypeError "Dict is not a valid ItemCollection"), σ) := by
  unfold ItemCollection.from_dict
  rw [if_pos hid]

theorem from_dict_identified (σ : Store) (d : JObj)
    (hid : identify_stac_object_type d = some STACObjectType.ITEMCOLLECTION) :
    ItemCollection.from_dict σ d =
      (Except.ok ⟨(itemsFromFeatures (featuresOf d) σ).1,
          d.filter (fun p => !(p.1 == "features" || p.1 == "type"))⟩,
        (itemsFromFeatures (featuresOf d) σ).2) := by
  unfold ItemCollection.from_dict
  rw [if_neg (by simp [hid])]
  simp [init_refs_noclone]

theorem from_dict_ok_extra (σ : Store) (d : JObj) (c : ItemCollection)
    (σ2 : Store) (h : ItemCollection.from_dict σ d = (Except.ok c, σ2)) :
    c.extra_fields = d.filter (fun p => !(p.1 == "features" || p.1 == "type")) := by
  by_cases hid : identify_stac_object_type d = some STACObjectType.ITEMCOLLECTION
  · rw [from_dict_identified σ d hid] at h
    have h1 := congrArg Prod.fst h
    injection h1 with h1
    rw [← h1]
  · rw [from_dict_not_identified σ d hid] at h
    have h1 := congrArg Prod.fst h
    simp at h1

theorem type_not_mem_filter_reserved (d : JObj) :
    "type" ∉ jKeys (d.filter (fun p => !(p.1 == "features" || p.1 == "type"))) := by
  intro hmem
  obtain ⟨p, hp, hfst⟩ := List.mem_map.mp hmem
  have hpred := (List.mem_filter.mp hp).2
  rw [hfst] at hpred
  simp at hpred

theorem features_not_mem_filter_reserved (d : JObj) :
    "features" ∉ jKeys (d.filter (fun p => !(p.1 == "features" || p.1 == "type"))) := by
  intro hmem
  obtain ⟨p, hp, hfst⟩ := List.mem_map.mp hmem
  have hpred := (List.mem_filter.mp hp).2
  rw [hfst] at hpred
  simp at hpred

/-! ## Claim theorems -/

/-- C9: `__add__` with any operand that is not an `ItemCollection` returns
the `NotImplemented` signal; it neither raises an exception nor produces a
collection. -/
theorem C9_add_non_collection_not_implemented (σ : Store) (a : ItemCollection)
    (v : Json) :
    ItemCollection.addPy σ a (PyOperand.nonColl v) = AddResult.notImplemented :=
  rfl

/-- C10: the constructor stores an `extra_fields` mapping containing the
reserved keys `"type"` and `"features"` unfiltered, and `to_dict` merges
`extra_fields` after the structural keys, so those entries override the
literal `"FeatureCollection"` and the serialized items list. -/
theorem C10_constructor_keeps_reserved_keys_and_to_dict_overrides :
    ((ItemCollection.init [] []
        (some [("type", Json.str "Custom"), ("features", Json.num 3)]) true).1.extra_fields
      = [("type", Json.str "Custom"), ("features", Json.num 3)]) ∧
    ItemCollection.to_dict []
        ((ItemCollection.init [] []
          (some [("type", Json.str "Custom"), ("features", Json.num 3)]) true).1)
      = [("type", Json.str "Custom"), ("features", Json.num 3)] ∧
    jLookup (ItemCollection.to_dict []
        ((ItemCollection.init [] []
          (some [("type", Json.str "Custom"), ("features", Json.num 3)]) true).1)) "type"
      = some (Json.str "Custom") ∧
    jLookup (ItemCollection.to_dict []
        ((ItemCollection.init [] []
          (some [("type", Json.str "Custom"), ("features", Json.num 3)]) true).1)) "features"
      = some (Json.num 3) :=
  ⟨rfl, rfl, rfl, rfl⟩

/-- C4, counterexample: construction accepts an `extra_fields` argument
containing the reserved key `"type"` and stores it unfiltered, so the
claimed invariant fails for collections produced by the constructor. -/
theorem C4_counterexample_init_keeps_type_key :
    "type" ∈ jKeys ((ItemCollection.init [] [] (some [("type", Json.null)]) true).1.extra_fields) := by
  simp [ItemCollection.init, mapItems, jKeys]

/-- C4, amended: `from_dict` and addition always yield an `extra_fields`
mapping free of the reserved keys `"type"` and `"features"`; the
constructor and `clone` store the supplied/source mapping unfiltered, so
they preserve that freedom exactly when the given mapping already has it. -/
theorem C4_amended_reserved_key_invariant :
    (∀ (σ : Store) (d : JObj) (c : ItemCollection) (σ2 : Store),
      ItemCollection.from_dict σ d = (Except.ok c, σ2) →
      "type" ∉ jKeys c.extra_fields ∧ "features" ∉ jKeys c.extra_fields) ∧
    (∀ (σ : Store) (a b : ItemCollection),
      "type" ∉ jKeys (ItemCollection.add σ a b).1.extra_fields ∧
      "features" ∉ jKeys (ItemCollection.add σ a b).1.extra_fields) ∧
    (∀ (σ : Store) (xs : List ItemLike) (e : Option JObj) (b : Bool),
      "type" ∉ jKeys (e.getD []) → "features" ∉ jKeys (e.getD []) →
      "type" ∉ jKeys (ItemCollection.init σ xs e b).1.extra_fields ∧
      "features" ∉ jKeys (ItemCollection.init σ xs e b).1.extra_fields) ∧
    (∀ (σ : Store) (c : ItemCollection),
      "type" ∉ jKeys c.extra_fields → "features" ∉ jKeys c.extra_fields →
      "type" ∉ jKeys (ItemCollection.clone σ c).1.extra_fields ∧
      "features" ∉ jKeys (ItemCollection.clone σ c).1.extra_fields) := by
  refine ⟨?_, ?_, ?_, ?_⟩
  · intro σ d c σ2 h
    rw [from_dict_ok_extra σ d c σ2 h]
    exact ⟨type_not_mem_filter_reserved d, features_not_mem_filter_reserved d⟩
  · intro σ a b
    rw [add_eq]
    simp [jKeys]
  · intro σ xs e b h1 h2
    rw [init_extra_fields]
    exact ⟨h1, h2⟩
  · intro σ c h1 h2
    rw [clone_extra_fields]
    exact ⟨h1, h2⟩

/-- Witness for the amended C4 at concrete inputs. -/
theorem C4_amended_witness :
    (ItemCollection.from_dict []
        [("type", Json.str "FeatureCollection"), ("license", Json.str "CC-BY")] =
      (Except.ok ⟨[], [("license", Json.str "CC-BY")]⟩, []) ∧
      "type" ∉ jKeys ([("license", Json.str "CC-BY")] : JObj) ∧
      "features" ∉ jKeys ([("license", Json.str "CC-BY")] : JObj)) ∧
    ("type" ∉ jKeys ((some [("license", Json.str "CC-BY")] : Option JObj).getD []) ∧
      "type" ∉ jKeys ((ItemCollection.init [] [] (some [("license", Json.str "CC-BY")]) true).1.extra_fields)) ∧
    ("type" ∉ jKeys (ItemCollection.mk [] [("license", Json.str "CC-BY")]).extra_fields ∧
      "type" ∉ jKeys ((ItemCollection.clone [] ⟨[], [("license", Json.str "CC-BY")]⟩).1.extra_fields)) := by
  have hfd := (C4_amended_reserved_key_invariant.1 []
    [("type", Json.str "FeatureCollection"), ("license", Json.str "CC-BY")]
    ⟨[], [("license", Json.str "CC-BY")]⟩ [] rfl)
  have hinit := (C4_amended_reserved_key_invariant.2.2.1 [] []
    (some [("license", Json.str "CC-BY")]) true (by decide) (by decide))
  have hclone := (C4_amended_reserved_key_invariant.2.2.2 []
    ⟨[], [("license", Json.str "CC-BY")]⟩ (by decide) (by decide))
  exact ⟨⟨rfl, hfd.1, hfd.2⟩, ⟨by decide, hinit.1⟩, ⟨by decide, hclone.1⟩⟩

/-- C2: the union of two collections walks `self.items` and then
`other.items`, keeping each item reference only at its first occurrence
(reference-identity deduplication); the result carries empty extra fields,
is built with cloning disabled (the item store is untouched), and for
`A = [x, y]`, `B = [y, z]` sharing the same `y` it is exactly `[x, y, z]`
of length 3. -/
theorem C2_add_union_dedup :
    (∀ (σ : Store) (a b : ItemCollection),
      (ItemCollection.add σ a b).2 = σ ∧
      (ItemCollection.add σ a b).1.extra_fields = [] ∧
      (ItemCollection.add σ a b).1.items.Nodup ∧
      (∀ x, x ∈ (ItemCollection.add σ a b).1.items ↔
        x ∈ a.items ∨ x ∈ b.items) ∧
      (a.items.Nodup → b.items.Nodup →
        (ItemCollection.add σ a b).1.items =
          a.items ++ b.items.filter (fun x => !a.items.contains x))) ∧
    (ItemCollection.add [] ⟨[0, 1], []⟩ ⟨[1, 2], []⟩).1.items = [0, 1, 2] ∧
    (ItemCollection.add [] ⟨[0, 1], []⟩ ⟨[1, 2], []⟩).1.size = 3 := by
  refine ⟨?_, rfl, rfl⟩
  intro σ a b
  rw [add_eq]
  refine ⟨rfl, rfl, dedupAppend_nodup _ _ List.nodup_nil, ?_, ?_⟩
  · intro x
    rw [mem_dedupAppend]
    simp
  · intro ha hb
    rw [dedupAppend_append, dedupAppend_of_nodup _ _ ha,
      dedupAppend_of_nodup _ _ hb]
    simp

/-- Witness for C2 at the collections `A = [x, y] = [0, 1]` and
`B = [y, z] = [1, 2]`. -/
theorem C2_add_union_dedup_witness :
    ([0, 1] : List Ref).Nodup ∧ ([1, 2] : List Ref).Nodup ∧
    (ItemCollection.add [] ⟨[0, 1], []⟩ ⟨[1, 2], []⟩).1.items =
      [0, 1] ++ ([1, 2] : List Ref).filter (fun x => !([0, 1] : List Ref).contains x) :=
  ⟨by decide, by decide,
    (C2_add_union_dedup.1 [] ⟨[0, 1], []⟩ ⟨[1, 2], []⟩).2.2.2.2 (by decide) (by decide)⟩

/-- C3: `from_dict` raises `STACTypeError` exactly when the type identifier
does not report the dictionary as the collection-of-items type; on that
path the item store is returned unchanged (nothing is parsed or
constructed), and `{"type": "Feature"}` is rejected with that error. -/
theorem C3_from_dict_wrong_type :
    (∀ (σ : Store) (d : JObj),
      ((∃ msg, (ItemCollection.from_dict σ d).1 =
          Except.error (STACError.STACTypeError msg)) ↔
        identify_stac_object_type d ≠ some STACObjectType.ITEMCOLLECTION) ∧
      (identify_stac_object_type d ≠ some STACObjectType.ITEMCOLLECTION →
        ItemCollection.from_dict σ d =
          (Except.error (STACError.STACTypeError "Dict is not a valid ItemCollection"), σ))) ∧
    (∀ σ : Store, ItemCollection.from_dict σ [("type", Json.str "Feature")] =
      (Except.error (STACError.STACTypeError "Dict is not a valid ItemCollection"), σ)) := by
  constructor
  · intro σ d
    by_cases hid : identify_stac_object_type d = some STACObjectType.ITEMCOLLECTION
    · constructor
      · constructor
        · rintro ⟨msg, hmsg⟩
          rw [from_dict_identified σ d hid] at hmsg
          simp at hmsg
        · intro hne
          exact absurd hid hne
      · intro hne
        exact absurd hid hne
    · constructor
      · constructor
        · intro _
          exact hid
        · intro _
          rw [from_dict_not_identified σ d hid]
          exact ⟨"Dict is not a valid ItemCollection", rfl⟩
      · intro _
        exact from_dict_not_identified σ d hid
  · intro σ
    exact from_dict_not_identified σ _ (by decide)

/-- Witness for C3 at a concrete wrongly-typed dictionary. -/
theorem C3_from_dict_wrong_type_witness :
    identify_stac_object_type [("type", Json.num 0)] ≠ some STACObjectType.ITEMCOLLECTION ∧
    ItemCollection.from_dict [] [("type", Json.num 0)] =
      (Except.error (STACError.STACTypeError "Dict is not a valid ItemCollection"), []) :=
  ⟨by decide, (C3_from_dict_wrong_type.1 [] [("type", Json.num 0)]).2 (by decide)⟩

/-- C5, counterexample: a collection constructed with `extra_fields`
containing `"type"` serializes with that entry's value, not with the
literal `"FeatureCollection"`, so the claim fails for it. -/
theorem C5_counterexample_extra_type_overrides :
    jLookup (ItemCollection.to_dict []
        ((ItemCollection.init [] [] (some [("type", Json.str "NotFC")]) true).1)) "type"
      ≠ some (Json.str "FeatureCollection") := by
  intro h
  rw [show jLookup (ItemCollection.to_dict []
      ((ItemCollection.init [] [] (some [("type", Json.str "NotFC")]) true).1)) "type"
    = some (Json.str "NotFC") from rfl] at h
  injection h with h
  injection h with h
  exact absurd h (by decide)

/-- C5, amended: for every collection whose (well-formed) `extra_fields`
contains neither `"type"` nor `"features"`, `to_dict` is exactly the
mapping `type ↦ "FeatureCollection"`, then `features ↦` the items'
serializations in stored order, then the extra fields in their own order. -/
theorem C5_amended_to_dict_shape (σ : Store) (c : ItemCollection)
    (h1 : "type" ∉ jKeys c.extra_fields)
    (h2 : "features" ∉ jKeys c.extra_fields)
    (h3 : (jKeys c.extra_fields).Nodup) :
    ItemCollection.to_dict σ c =
      ("type", Json.str "FeatureCollection") ::
        ("features", Json.arr (c.items.map (Item.to_dict σ))) :: c.extra_fields :=
  to_dict_eq_cons σ c h1 h2 h3

/-- C1: for any collection whose (well-formed) `extra_fields` contains
neither `"type"` nor `"features"`, `from_dict (to_dict c)` succeeds and the
result serializes to exactly the same dictionary. -/
theorem C1_roundtrip_from_dict_to_dict (σ : Store) (c : ItemCollection)
    (h1 : "type" ∉ jKeys c.extra_fields)
    (h2 : "features" ∉ jKeys c.extra_fields)
    (h3 : (jKeys c.extra_fields).Nodup) :
    ∃ (c2 : ItemCollection) (σ2 : Store),
      ItemCollection.from_dict σ (ItemCollection.to_dict σ c) = (Except.ok c2, σ2) ∧
      ItemCollection.to_dict σ2 c2 = ItemCollection.to_dict σ c := by
  have hd := to_dict_eq_cons σ c h1 h2 h3
  have hlt : jLookup (ItemCollection.to_dict σ c) "type" =
      some (Json.str "FeatureCollection") := by
    rw [hd, jLookup_cons]
    simp
  have hid : identify_stac_object_type (ItemCollection.to_dict σ c) =
      some STACObjectType.ITEMCOLLECTION := by
    unfold identify_stac_object_type
    rw [hlt]
    rfl
  have hlf : jLookup (ItemCollection.to_dict σ c) "features" =
      some (Json.arr (c.items.map (Item.to_dict σ))) := by
    rw [hd, jLookup_cons, if_neg (by decide), jLookup_cons]
    simp
  have hfeat : featuresOf (ItemCollection.to_dict σ c) =
      c.items.map (Item.to_dict σ) := by
    unfold featuresOf
    rw [hlf]
    rfl
  have hkeep : ∀ p ∈ c.extra_fields,
      (fun p : String × Json => !(p.1 == "features" || p.1 == "type")) p = true := by
    intro p hp
    have hpt : p.1 ≠ "type" := fun he => h1 (List.mem_map.mpr ⟨p, hp, he⟩)
    have hpf : p.1 ≠ "features" := fun he => h2 (List.mem_map.mpr ⟨p, hp, he⟩)
    simp [hpt, hpf]
  have hextra : (ItemCollection.to_dict σ c).filter
      (fun p => !(p.1 == "features" || p.1 == "type")) = c.extra_fields := by
    rw [hd, List.filter_cons_of_neg (by simp), List.filter_cons_of_neg (by simp),
      List.filter_eq_self.mpr hkeep]
  refine ⟨⟨(itemsFromFeatures (featuresOf (ItemCollection.to_dict σ c)) σ).1,
      (ItemCollection.to_dict σ c).filter (fun p => !(p.1 == "features" || p.1 == "type"))⟩,
    (itemsFromFeatures (featuresOf (ItemCollection.to_dict σ c)) σ).2,
    from_dict_identified σ _ hid, ?_⟩
  rw [hfeat, hextra, itemsFromFeatures_eq]
  have hnew := to_dict_eq_cons (σ ++ c.items.map (Item.to_dict σ))
    (⟨List.range' σ.length (c.items.map (Item.to_dict σ)).length, c.extra_fields⟩ :
      ItemCollection) h1 h2 h3
  rw [show ((List.range' σ.length (c.items.map (Item.to_dict σ)).length,
      σ ++ c.items.map (Item.to_dict σ)) : List Ref × Store).1 =
    List.range' σ.length (c.items.map (Item.to_dict σ)).length from rfl]
  rw [show ((List.range' σ.length (c.items.map (Item.to_dict σ)).length,
      σ ++ c.items.map (Item.to_dict σ)) : List Ref × Store).2 =
    σ ++ c.items.map (Item.to_dict σ) from rfl]
  rw [hnew, to_dict_map_range', hd]

/-- Witness for C1 at a concrete collection. -/
theorem C1_roundtrip_witness :
    "type" ∉ jKeys ([("license", Json.str "MIT")] : JObj) ∧
    "features" ∉ jKeys ([("license", Json.str "MIT")] : JObj) ∧
    (jKeys ([("license", Json.str "MIT")] : JObj)).Nodup ∧
    ∃ (c2 : ItemCollection) (σ2 : Store),
      ItemCollection.from_dict [Json.num 4]
          (ItemCollection.to_dict [Json.num 4] ⟨[0], [("license", Json.str "MIT")]⟩) =
        (Except.ok c2, σ2) ∧
      ItemCollection.to_dict σ2 c2 =
        ItemCollection.to_dict [Json.num 4] ⟨[0], [("license", Json.str "MIT")]⟩ :=
  ⟨by decide, by decide, by decide,
    C1_roundtrip_from_dict_to_dict [Json.num 4] ⟨[0], [("license", Json.str "MIT")]⟩
      (by decide) (by decide) (by decide)⟩

/-- C6: construction preserves length and input order; each raw dictionary
is parsed into a fresh item whose state is that dictionary, each item
instance is stored as a fresh structurally-equal clone when `clone_items`
is true and as the identical reference when it is false. -/
theorem C6_init_length_order_clone (σ : Store) (xs : List ItemLike)
    (e : Option JObj) (b : Bool)
    (hv : ∀ r, ItemLike.item r ∈ xs → r < σ.length) :
    (ItemCollection.init σ xs e b).1.size = xs.length ∧
    List.Forall₂ (initSpec b σ (ItemCollection.init σ xs e b).2) xs
      (ItemCollection.init σ xs e b).1.items := by
  have h := mapItems_spec_aux b σ xs σ ⟨[], by simp⟩ hv
  exact ⟨h.1, h.2.2⟩

/-- Witness for C6 on a mixed dictionary/item input with cloning. -/
theorem C6_init_length_order_clone_witness :
    (∀ r, ItemLike.item r ∈ [ItemLike.dict (Json.num 1), ItemLike.item 0] →
      r < ([Json.num 7] : Store).length) ∧
    ((ItemCollection.init [Json.num 7]
        [ItemLike.dict (Json.num 1), ItemLike.item 0] none true).1.size = 2 ∧
      List.Forall₂ (initSpec true [Json.num 7]
          (ItemCollection.init [Json.num 7]
            [ItemLike.dict (Json.num 1), ItemLike.item 0] none true).2)
        [ItemLike.dict (Json.num 1), ItemLike.item 0]
        (ItemCollection.init [Json.num 7]
          [ItemLike.dict (Json.num 1), ItemLike.item 0] none true).1.items) := by
  have hv : ∀ r, ItemLike.item r ∈ [ItemLike.dict (Json.num 1), ItemLike.item 0] →
      r < ([Json.num 7] : Store).length := by
    intro r hr
    rcases List.mem_cons.mp hr with h | h
    · exact absurd h (by intro h; cases h)
    · rcases List.mem_cons.mp h with h | h
      · cases h
        decide
      · exact absurd h (by intro h; cases h)
  exact ⟨hv, C6_init_length_order_clone [Json.num 7]
    [ItemLike.dict (Json.num 1), ItemLike.item 0] none true hv⟩

/-- C7: membership is reference identity: a collection built from `[x]`
without cloning reports `x` as a member; built with cloning it does not,
even though the stored clone is structurally identical to `x`. -/
theorem C7_membership_is_reference_identity (σ : Store) (x : Ref)
    (hx : x < σ.length) :
    (ItemCollection.init σ [ItemLike.item x] none false).1.hasMember x = true ∧
    (ItemCollection.init σ [ItemLike.item x] none true).1.hasMember x = false ∧
    Item.to_dict (ItemCollection.init σ [ItemLike.item x] none true).2
        ((ItemCollection.init σ [ItemLike.item x] none true).1.items.getD 0 0) =
      Item.to_dict σ x := by
  have hne : x ≠ σ.length := Nat.ne_of_lt hx
  refine ⟨?_, ?_, ?_⟩
  · simp [ItemCollection.init, mapItems, map_item, ItemCollection.hasMember]
  · simp [ItemCollection.init, mapItems, map_item, Item.clone,
      ItemCollection.hasMember, hne]
  · show Item.to_dict (σ ++ [σ.getD x Json.null]) σ.length = Item.to_dict σ x
    have := to_dict_append_add σ [σ.getD x Json.null] 0
    simp [Item.to_dict] at this ⊢

/-- Witness for C7 with a one-item store. -/
theorem C7_membership_is_reference_identity_witness :
    0 < ([Json.null] : Store).length ∧
    ((ItemCollection.init [Json.null] [ItemLike.item 0] none false).1.hasMember 0 = true ∧
      (ItemCollection.init [Json.null] [ItemLike.item 0] none true).1.hasMember 0 = false ∧
      Item.to_dict (ItemCollection.init [Json.null] [ItemLike.item 0] none true).2
          ((ItemCollection.init [Json.null] [ItemLike.item 0] none true).1.items.getD 0 0) =
        Item.to_dict [Json.null] 0) :=
  ⟨by decide, C7_membership_is_reference_identity [Json.null] 0 (by decide)⟩

/-- C8: `clone` produces a collection whose items are fresh (pairwise
distinct, disjoint from all pre-existing references) structurally-equal
copies of the source items, in order, and whose `extra_fields` is the deep
copy of the source's; mutating any cloned item leaves every source item's
state unchanged and vice versa. -/
theorem C8_clone_deep_copy_independence (σ : Store) (c : ItemCollection)
    (hv : ∀ r ∈ c.items, r < σ.length) :
    (ItemCollection.clone σ c).1.extra_fields = deepcopy c.extra_fields ∧
    List.Forall₂ (fun r r2 => σ.length ≤ r2 ∧
        Item.to_dict (ItemCollection.clone σ c).2 r2 = Item.to_dict σ r)
      c.items (ItemCollection.clone σ c).1.items ∧
    (ItemCollection.clone σ c).1.items.Nodup ∧
    (∀ r2 ∈ (ItemCollection.clone σ c).1.items, ∀ r ∈ c.items, ∀ dv : Json,
      Item.to_dict (setItem (ItemCollection.clone σ c).2 r2 dv) r = Item.to_dict σ r ∧
      Item.to_dict (setItem (ItemCollection.clone σ c).2 r dv) r2 =
        Item.to_dict (ItemCollection.clone σ c).2 r2) := by
  have hc := clone_eq σ c hv
  rw [hc]
  have hstore : ∀ r ∈ c.items,
      Item.to_dict (σ ++ c.items.map (Item.to_dict σ) ++ c.items.map (Item.to_dict σ)) r =
        Item.to_dict σ r := by
    intro r hr
    rw [List.append_assoc]
    exact to_dict_append_of_lt σ _ r (hv r hr)
  refine ⟨rfl, ?_, List.nodup_range' _ _ 1 Nat.one_pos, ?_⟩
  · rw [List.forall₂_iff_get]
    constructor
    · simp
    · intro i hi1 hi2
      have hget : (List.range' (σ.length + c.items.length) c.items.length).get
          ⟨i, hi2⟩ = σ.length + c.items.length + i := List.getElem_range'_1 i hi2
      rw [hget]
      constructor
      · omega
      · have hilen : i < (c.items.map (Item.to_dict σ)).length := by
          simpa using hi1
        have hadd : Item.to_dict
            (σ ++ c.items.map (Item.to_dict σ) ++ c.items.map (Item.to_dict σ))
            ((σ ++ c.items.map (Item.to_dict σ)).length + i) =
            (c.items.map (Item.to_dict σ)).getD i Json.null :=
          to_dict_append_add _ _ i
        rw [show σ.length + c.items.length + i =
            (σ ++ c.items.map (Item.to_dict σ)).length + i by simp, hadd]
        simp [List.getD_eq_getElem?_getD, List.getElem?_map,
          List.getElem?_eq_getElem hi1]
  · intro r2 hr2 r hr dv
    have hb2 := List.mem_range'_1.mp hr2
    have hb : r < σ.length := hv r hr
    have hne : r2 ≠ r := by
      intro he
      rw [he] at hb2
      exact absurd hb (Nat.not_lt.mpr (le_trans (Nat.le_add_right _ _) hb2.1))
    constructor
    · rw [to_dict_set_ne _ _ _ _ hne]
      exact hstore r hr
    · rw [to_dict_set_ne _ _ _ _ (Ne.symm hne)]

/-- Witness for C8 at a one-item collection. -/
theorem C8_clone_deep_copy_independence_witness :
    (∀ r ∈ ([0] : List Ref), r < ([Json.num 5] : Store).length) ∧
    ((ItemCollection.clone [Json.num 5] ⟨[0], [("k", Json.bool true)]⟩).1.extra_fields =
        deepcopy [("k", Json.bool true)] ∧
      List.Forall₂ (fun r r2 => ([Json.num 5] : Store).length ≤ r2 ∧
          Item.to_dict (ItemCollection.clone [Json.num 5] ⟨[0], [("k", Json.bool true)]⟩).2 r2 =
            Item.to_dict [Json.num 5] r)
        [0] (ItemCollection.clone [Json.num 5] ⟨[0], [("k", Json.bool true)]⟩).1.items ∧
      (ItemCollection.clone [Json.num 5] ⟨[0], [("k", Json.bool true)]⟩).1.items.Nodup ∧
      (∀ r2 ∈ (ItemCollection.clone [Json.num 5] ⟨[0], [("k", Json.bool true)]⟩).1.items,
        ∀ r ∈ ([0] : List Ref), ∀ dv : Json,
        Item.to_dict (setItem
            (ItemCollection.clone [Json.num 5] ⟨[0], [("k", Json.bool true)]⟩).2 r2 dv) r =
          Item.to_dict [Json.num 5] r ∧
        Item.to_dict (setItem
            (ItemCollection.clone [Json.num 5] ⟨[0], [("k", Json.bool true)]⟩).2 r dv) r2 =
          Item.to_dict (ItemCollection.clone [Json.num 5] ⟨[0], [("k", Json.bool true)]⟩).2 r2)) :=
  ⟨by decide, C8_clone_deep_copy_independence [Json.num 5] ⟨[0], [("k", Json.bool true)]⟩
    (by decide)⟩

/-- Witness for the amended C5 at a concrete collection. -/
theorem C5_amended_to_dict_shape_witness :
    "type" ∉ jKeys ([("license", Json.str "CC")] : JObj) ∧
    "features" ∉ jKeys ([("license", Json.str "CC")] : JObj) ∧
    (jKeys ([("license", Json.str "CC")] : JObj)).Nodup ∧
    ItemCollection.to_dict [Json.num 9] ⟨[0], [("license", Json.str "CC")]⟩ =
      ("type", Json.str "FeatureCollection") ::
        ("features", Json.arr [Json.num 9]) :: [("license", Json.str "CC")] :=
  ⟨by decide, by decide, by decide,
    C5_amended_to_dict_shape [Json.num 9] ⟨[0], [("license", Json.str "CC")]⟩
      (by decide) (by decide) (by decide)⟩

end PystacIC
